import Mathlib

/-!
# Verification of the sparrow transmission TUI against its specification

This file gives a shallow embedding of the claim-relevant parts of the
`sparrow` repository (a ratatui front end for the transmission RPC service)
and settles the frozen claims about it.

Embedding conventions:
* Rust `i64` / `usize` values are modelled as `Int` / `Nat`; where the claims
  depend on overflow or underflow behaviour this is noted at the definition.
* Rust `f32`/`f64` values that reach a formatter are, in every situation the
  claims exercise, exactly representable in the float type, so they are
  modelled as exact rationals given by a numerator/denominator pair and the
  formatting (`format!("{:.1}", x)` etc.) is modelled as exact decimal
  rounding, half to even, which is Rust's behaviour on the exact value.
* Strings are compared the way Rust's `str::cmp` compares them: lexicographic
  byte order, which on UTF-8 agrees with code-point order, so the comparison
  is modelled on the `List Char` of code points.
* The fallible RPC transport is modelled as a function from the request
  filter to an `Except`-value; the mapping layer takes that function.
-/

namespace Sparrow

/-! ## Decimal rendering helpers

Rust's `format!` for integers prints base-10 digits; `Nat.toDigits 10` does
the same and is kernel-computable. -/

/-- Digits of a nonnegative integer, `'-'`-prefixed digits of a negative one:
the rendering Rust's `format!("{v}")` produces for an `i64`. -/
def intChars (i : Int) : List Char :=
  if i < 0 then '-' :: Nat.toDigits 10 i.natAbs else Nat.toDigits 10 i.natAbs

/-- The `format!("{v}")` of an `i64`, as a `String`. -/
def intRepr (i : Int) : String :=
  String.mk (intChars i)

/-- Round `num / den` to the nearest integer, ties to even: the rounding Rust
applies when formatting the exact value of a float with fixed precision. -/
def roundHalfEven (num : Int) (den : Nat) : Int :=
  let q := num.fdiv den
  let r := num.fmod den
  if 2 * r < den then q
  else if (den : Int) < 2 * r then q + 1
  else if q % 2 = 0 then q else q + 1

/-- Digits of `val`, left-padded with `'0'` to `places` characters. -/
def natCharsPad (val places : Nat) : List Char :=
  let ds := Nat.toDigits 10 val
  List.replicate (places - ds.length) '0' ++ ds

/-- Rust `format!("{:.places$}", x)` where `x` is exactly the rational
`num / den` (`den > 0`): fixed-point decimal with `places` fractional digits,
rounding half to even on the exact value. -/
def fmtFixed (places : Nat) (num : Int) (den : Nat) : String :=
  let t := roundHalfEven (num * (10 : Int) ^ places) den
  let mag := t.natAbs
  let body := Nat.toDigits 10 (mag / 10 ^ places) ++ '.' :: natCharsPad (mag % 10 ^ places) places
  String.mk (if num < 0 then '-' :: body else body)

/-- An `f32` value that is exactly the rational `num / den`.  All `f32`s the
claims exercise are exact (sentinels like `-1.0` and small decimals fed by the
test vectors), so exact rational arithmetic models them faithfully. -/
structure F32 where
  num : Int
  den : Nat
deriving DecidableEq

/-! ## src/utils.rs -/

/-- The `Priority` from the `transmission_rpc` types, as matched by
`convert_priority` in src/utils.rs. -/
inductive Priority where
  | Low
  | Normal
  | High
deriving DecidableEq

/-- The `TorrentStatus` from the `transmission_rpc` types, as matched by
`convert_status` in src/utils.rs. -/
inductive TorrentStatus where
  | Stopped
  | QueuedToVerify
  | Verifying
  | QueuedToDownload
  | Downloading
  | QueuedToSeed
  | Seeding
deriving DecidableEq

/-- The `convert_bytes` from src/utils.rs.  The source iterates `find_map` over
the enumerated unit array `["B","KB","MB","GB","TB"]` with the guard
`bytes < 1024 << (i * 10)`; that shift equals `1024 ^ (i + 1)` and does not
overflow an `i64` for `i ≤ 4`, so the iteration is unrolled into the
equivalent conditional chain.  In every branch taken the dividend satisfies
`|bytes| < 2^50`, so `bytes as f64 / 1024.0f64.powi(i)` is exact and
`fmtFixed` reproduces `format!("{:.1}", _)` exactly.  When no unit matches the
source falls back to `format!("{bytes} B")`. -/
def convert_bytes (bytes : Int) : String :=
  if bytes < 1024 then fmtFixed 1 bytes 1 ++ " B"
  else if bytes < 1024 ^ 2 then fmtFixed 1 bytes 1024 ++ " KB"
  else if bytes < 1024 ^ 3 then fmtFixed 1 bytes (1024 ^ 2) ++ " MB"
  else if bytes < 1024 ^ 4 then fmtFixed 1 bytes (1024 ^ 3) ++ " GB"
  else if bytes < 1024 ^ 5 then fmtFixed 1 bytes (1024 ^ 4) ++ " TB"
  else intRepr bytes ++ " B"

/-- The `handle_ratio` from src/utils.rs: the `f32` sentinel `-1.0` renders
`"None"`, anything else renders with two decimals.  `ratio == -1_f32` holds
exactly when the value equals `-1`, i.e. `num = -den`. -/
def handle_ratio (ratio : F32) : String :=
  if ratio.num = -(ratio.den : Int) then "None"
  else fmtFixed 2 ratio.num ratio.den

/-- The `convert_priority` from src/utils.rs. -/
def convert_priority (priority : Priority) : String :=
  match priority with
  | Priority.Low => "Low"
  | Priority.Normal => "Normal"
  | Priority.High => "High"

/-- The `convert_status` from src/utils.rs. -/
def convert_status (status : TorrentStatus) : String :=
  match status with
  | TorrentStatus.Stopped => "Stopped"
  | TorrentStatus.QueuedToVerify => "QueuedToVerify"
  | TorrentStatus.Verifying => "Verifying"
  | TorrentStatus.QueuedToDownload => "QueuedToDownload"
  | TorrentStatus.Downloading => "Downloading"
  | TorrentStatus.QueuedToSeed => "QueuedToSeed"
  | TorrentStatus.Seeding => "Seeding"

/-- The `convert_eta` from src/utils.rs.  Rust `i64` `/` and `%` truncate toward
zero, which is `Int.tdiv` / `Int.tmod`.  The component array is filtered to
the strictly positive entries, each rendered `"{value}{unit}"`, and the
concatenation is truncated just past the first `'d'` when one is present
(`readable.truncate(readable.find('d').unwrap() + 1)`), modelled as
`takeWhile (· ≠ 'd') ++ ['d']` on the character list. -/
def convert_eta (eta : Int) : String :=
  if eta = -1 then "Unknown"
  else if eta = -2 ∨ 86400 * 99 < eta then "Inf"
  else
    let comps : List (Int × Char) :=
      [(eta.tdiv 86400, 'd'), ((eta.tmod 86400).tdiv 3600, 'h'),
       ((eta.tmod 3600).tdiv 60, 'm'), (eta.tmod 60, 's')]
    let readable : List Char :=
      (comps.filterMap fun vu =>
        if 0 < vu.1 then some (intChars vu.1 ++ [vu.2]) else none).flatten
    if readable.contains 'd' then
      String.mk (readable.takeWhile (fun c => c ≠ 'd') ++ ['d'])
    else
      String.mk readable

/-- The `convert_percentage` from src/utils.rs: `"Done"` once the `f32` ratio
reaches `1.0`, else `format!("{:.1}%", 100.0 * done)`. -/
def convert_percentage (done : F32) : String :=
  if (done.den : Int) ≤ done.num then "Done"
  else fmtFixed 1 (100 * done.num) done.den ++ "%"

/-! Source test vectors (src/utils.rs `mod tests`), kept as compile-time
checks that the embedding reproduces the functions the tests pin down. -/

example : convert_bytes 0 = "0.0 B" := by decide
example : convert_bytes 1 = "1.0 B" := by decide
example : convert_bytes 1023 = "1023.0 B" := by decide
example : convert_bytes 1024 = "1.0 KB" := by decide
example : convert_bytes (1024 * 1024) = "1.0 MB" := by decide
example : convert_bytes (1024 * 1024 * 1024) = "1.0 GB" := by decide
example : convert_bytes (1024 * 1024 * 1024 * 1024) = "1.0 TB" := by decide
example : convert_bytes (-1) = "-1.0 B" := by decide
example : handle_ratio ⟨-1, 1⟩ = "None" := by decide
example : handle_ratio ⟨0, 1⟩ = "0.00" := by decide
example : handle_ratio ⟨1, 2⟩ = "0.50" := by decide
example : handle_ratio ⟨1, 1⟩ = "1.00" := by decide
example : convert_eta (-1) = "Unknown" := by decide
example : convert_eta (-2) = "Inf" := by decide
example : convert_eta (86400 * 3600) = "Inf" := by decide
example : convert_eta 0 = "" := by decide
example : convert_eta 1 = "1s" := by decide
example : convert_eta 60 = "1m" := by decide
example : convert_eta 3600 = "1h" := by decide
example : convert_eta 86400 = "1d" := by decide
example : convert_eta (86400 + 3600) = "1d" := by decide
example : convert_percentage ⟨0, 1⟩ = "0.0%" := by decide
example : convert_percentage ⟨3, 10000⟩ = "0.0%" := by decide
example : convert_percentage ⟨3, 1000⟩ = "0.3%" := by decide
example : convert_percentage ⟨1, 2⟩ = "50.0%" := by decide
example : convert_percentage ⟨1, 1⟩ = "Done" := by decide
example : convert_percentage ⟨11, 10⟩ = "Done" := by decide

/-! ## Character-level facts about the decimal renderings -/

theorem digitChar_isDigit {m : Nat} (h : m < 10) : (Nat.digitChar m).isDigit = true := by
  interval_cases m <;> decide

theorem mem_toDigitsCore_10 :
    ∀ (fuel n : Nat) (ds : List Char) (c : Char), c ∈ Nat.toDigitsCore 10 fuel n ds →
      c ∈ ds ∨ c.isDigit = true := by
  intro fuel
  induction fuel with
  | zero => intro n ds c hc; exact Or.inl hc
  | succ fuel ih =>
    intro n ds c hc
    rw [Nat.toDigitsCore] at hc
    by_cases h0 : n / 10 = 0
    · rw [if_pos h0] at hc
      rcases List.mem_cons.mp hc with h | h
      · exact Or.inr (h ▸ digitChar_isDigit (Nat.mod_lt _ (by omega)))
      · exact Or.inl h
    · rw [if_neg h0] at hc
      rcases ih _ _ _ hc with h | h
      · rcases List.mem_cons.mp h with h | h
        · exact Or.inr (h ▸ digitChar_isDigit (Nat.mod_lt _ (by omega)))
        · exact Or.inl h
      · exact Or.inr h

theorem mem_toDigits_10_isDigit {n : Nat} {c : Char} (hc : c ∈ Nat.toDigits 10 n) :
    c.isDigit = true := by
  rcases mem_toDigitsCore_10 _ _ _ _ hc with h | h
  · exact absurd h (List.not_mem_nil c)
  · exact h

theorem mem_intChars_pos_isDigit {v : Int} (hv : 0 < v) {c : Char} (hc : c ∈ intChars v) :
    c.isDigit = true := by
  rw [intChars, if_neg (by omega)] at hc
  exact mem_toDigits_10_isDigit hc

theorem isDigit_ne {c u : Char} (hc : c.isDigit = true) (hu : u.isDigit = false) : c ≠ u := by
  intro h; rw [h, hu] at hc; cases hc

theorem takeWhile_digits_d (ds R : List Char) (h : ∀ c ∈ ds, c.isDigit = true) :
    (ds ++ 'd' :: R).takeWhile (fun c => c ≠ 'd') = ds := by
  induction ds with
  | nil => simp [List.takeWhile]
  | cons c t ih =>
    have hc : c ≠ 'd' := isDigit_ne (h c (List.mem_cons_self c t)) (by decide)
    simp only [List.cons_append, List.takeWhile_cons]
    rw [if_pos (by simpa using hc)]
    rw [ih fun x hx => h x (List.mem_cons_of_mem c hx)]

theorem contains_append_cons_self (ds R : List Char) :
    (ds ++ 'd' :: R).contains 'd' = true :=
  List.elem_iff.mpr (by simp)

theorem contains_eq_false_of_not_mem {l : List Char} {a : Char} (h : a ∉ l) :
    l.contains a = false := by
  rcases hb : l.contains a with _ | _
  · rfl
  · exact absurd (List.elem_iff.mp hb) h

/-! ## Claim C4: `convert_bytes` unit selection -/

/-- C4 counterexample: the claim says every `b ≥ 0` renders with the largest
unit among B/KB/MB/GB/TB whose base-1024 magnitude is at least 1, to one
decimal place — for `b = 1024^5` that would be `"1024.0 TB"` — but the source
falls through its `find_map` for `b ≥ 1024^5` and renders the raw count as
`"{bytes} B"` with no decimal. -/
theorem convert_bytes_top_fallback_counterexample :
    convert_bytes (1024 ^ 5) = "1125899906842624 B" ∧
      convert_bytes (1024 ^ 5) ≠ "1024.0 TB" := by
  constructor <;> decide

/-- C4 (amended): for every byte count `0 ≤ b < 1024^5`, `convert_bytes`
renders `b` to one decimal place with the largest unit among B/KB/MB/GB/TB
whose base-1024 magnitude is at least 1, so the displayed magnitude lies in
`[1, 1024)` except in the bottom unit `"B"`, where counts below 1024 render
with one decimal; `convert_bytes 1024 = "1.0 KB"`, `convert_bytes 0 = "0.0 B"`.
For `b ≥ 1024^5` the source instead renders the raw count as `"{b} B"`. -/
theorem convert_bytes_unit_selection :
    (∀ b : Int, 0 ≤ b → b < 1024 ^ 5 →
      ∃ i : Nat, i < 5 ∧ b < 1024 ^ (i + 1) ∧ (1 ≤ i → 1024 ^ i ≤ b) ∧
        convert_bytes b = fmtFixed 1 b (1024 ^ i) ++ [" B", " KB", " MB", " GB", " TB"].getD i "") ∧
    convert_bytes 1024 = "1.0 KB" ∧ convert_bytes 0 = "0.0 B" ∧
    (∀ b : Int, 1024 ^ 5 ≤ b → convert_bytes b = intRepr b ++ " B") := by
  have e2 : (1024 : Int) ^ 2 = 1048576 := by norm_num
  have e3 : (1024 : Int) ^ 3 = 1073741824 := by norm_num
  have e4 : (1024 : Int) ^ 4 = 1099511627776 := by norm_num
  have e5 : (1024 : Int) ^ 5 = 1125899906842624 := by norm_num
  refine ⟨?_, by decide, by decide, ?_⟩
  · intro b _h0 h5
    rw [e5] at h5
    by_cases h1 : b < 1024
    · refine ⟨0, by norm_num, by rw [pow_one]; exact h1, by omega, ?_⟩
      rw [convert_bytes, if_pos h1]
      norm_num [List.getD]
    · by_cases h2 : b < 1024 ^ 2
      · refine ⟨1, by norm_num, by rw [show (1:Nat)+1 = 2 from rfl]; exact h2,
          fun _ => by rw [pow_one]; omega, ?_⟩
        rw [convert_bytes, if_neg h1, if_pos h2]
        norm_num [List.getD]
      · by_cases h3 : b < 1024 ^ 3
        · refine ⟨2, by norm_num, by rw [show (2:Nat)+1 = 3 from rfl]; exact h3,
            fun _ => by rw [e2]; rw [e2] at h2; omega, ?_⟩
          rw [convert_bytes, if_neg h1, if_neg h2, if_pos h3]
          norm_num [List.getD]
        · by_cases h4 : b < 1024 ^ 4
          · refine ⟨3, by norm_num, by rw [show (3:Nat)+1 = 4 from rfl]; exact h4,
              fun _ => by rw [e3]; rw [e3] at h3; omega, ?_⟩
            rw [convert_bytes, if_neg h1, if_neg h2, if_neg h3, if_pos h4]
            norm_num [List.getD]
          · refine ⟨4, by norm_num, by rw [show (4:Nat)+1 = 5 from rfl, e5]; omega,
              fun _ => by rw [e4]; rw [e4] at h4; omega, ?_⟩
            rw [convert_bytes, if_neg h1, if_neg h2, if_neg h3, if_neg h4,
              if_pos (by rw [e5]; omega)]
            norm_num [List.getD]
  · intro b hb
    rw [e5] at hb
    rw [convert_bytes, if_neg (by omega), if_neg (by rw [e2]; omega),
      if_neg (by rw [e3]; omega), if_neg (by rw [e4]; omega), if_neg (by rw [e5]; omega)]

/-- Witness for C4 (amended), at the concrete input `b = 1536`. -/
theorem convert_bytes_unit_selection_witness :
    ∃ i : Nat, i < 5 ∧ (1536 : Int) < 1024 ^ (i + 1) ∧ (1 ≤ i → (1024 : Int) ^ i ≤ 1536) ∧
      convert_bytes 1536 = fmtFixed 1 1536 (1024 ^ i) ++ [" B", " KB", " MB", " GB", " TB"].getD i "" :=
  convert_bytes_unit_selection.1 1536 (by norm_num) (by norm_num)

/-! ## Claim C5: `convert_eta` rendering -/

/-- Spec-side rendering for the C5 refinement comparison: the concatenation of
all positive unit components among hours/minutes/seconds, largest to smallest,
with no separators (spec §4.3 / §8, with "nonzero" corrected to "positive" as
the counterexample forces). -/
def etaSpecConcat (eta : Int) : String :=
  String.mk
    ((if 0 < (eta.tmod 86400).tdiv 3600 then intChars ((eta.tmod 86400).tdiv 3600) ++ ['h'] else []) ++
     ((if 0 < (eta.tmod 3600).tdiv 60 then intChars ((eta.tmod 3600).tdiv 60) ++ ['m'] else []) ++
      (if 0 < eta.tmod 60 then intChars (eta.tmod 60) ++ ['s'] else [])))

/-- C5 counterexample: the claim says that whenever the day component is zero
the result is the concatenation of all *nonzero* unit components among
hours/minutes/seconds — at `eta = -3` (which is neither `-1` nor `-2` nor
beyond 99 days) the seconds component is the nonzero `-3`, so the claim
requires `"-3s"`, but the source filters for strictly *positive* components
and renders `""`. -/
theorem convert_eta_negative_counterexample :
    convert_eta (-3) = "" ∧ convert_eta (-3) ≠ "-3s" := by
  constructor <;> decide

theorem no_d_in_pieces :
    ∀ (l : List (Int × Char)), (∀ vu ∈ l, vu.2 ≠ 'd') →
      ∀ c ∈ (l.filterMap fun vu =>
        if 0 < vu.1 then some (intChars vu.1 ++ [vu.2]) else none).flatten, c ≠ 'd' := by
  intro l
  induction l with
  | nil => intro _ c hc; simp at hc
  | cons vu t ih =>
    intro hu c hc
    rw [List.filterMap_cons] at hc
    by_cases hp : 0 < vu.1
    · rw [if_pos hp] at hc
      rw [List.flatten_cons] at hc
      rcases List.mem_append.mp hc with h | h
      · rcases List.mem_append.mp h with h | h
        · exact isDigit_ne (mem_intChars_pos_isDigit hp h) (by decide)
        · rw [List.mem_singleton] at h
          exact h ▸ hu vu (List.mem_cons_self vu t)
      · exact ih (fun x hx => hu x (List.mem_cons_of_mem vu hx)) c h
    · rw [if_neg hp] at hc
      exact ih (fun x hx => hu x (List.mem_cons_of_mem vu hx)) c hc

/-- C5 (amended): `convert_eta (-1) = "Unknown"`; `convert_eta` of `-2` or of
any value exceeding 99 days is `"Inf"`; for every other eta the result is the
day component alone whenever the day component is *positive*, and otherwise
the concatenation of all *positive* unit components among
hours/minutes/seconds from largest to smallest with no separators
(`convert_eta 3600 = "1h"`, `convert_eta (86400 + 3600) = "1d"`). -/
theorem convert_eta_rendering :
    convert_eta (-1) = "Unknown" ∧ convert_eta (-2) = "Inf" ∧
    (∀ e : Int, 86400 * 99 < e → convert_eta e = "Inf") ∧
    (∀ e : Int, e ≠ -1 → e ≠ -2 → e ≤ 86400 * 99 →
      (0 < e.tdiv 86400 → convert_eta e = String.mk (intChars (e.tdiv 86400) ++ ['d'])) ∧
      (e.tdiv 86400 ≤ 0 → convert_eta e = etaSpecConcat e)) ∧
    convert_eta 3600 = "1h" ∧ convert_eta (86400 + 3600) = "1d" := by
  refine ⟨by decide, by decide, ?_, ?_, by decide, by decide⟩
  · intro e he
    rw [convert_eta, if_neg (by omega), if_pos (Or.inr he)]
  · intro e h1 h2 h99
    have hnot : ¬ (e = -2 ∨ 86400 * 99 < e) := by
      rintro (h | h)
      · exact h2 h
      · omega
    constructor
    · intro hd
      rw [convert_eta, if_neg h1, if_neg hnot]
      simp only [List.filterMap_cons, if_pos hd, List.flatten_cons]
      rw [List.append_assoc, List.singleton_append]
      rw [contains_append_cons_self]
      simp only [if_true]
      rw [takeWhile_digits_d _ _ (fun c hc => mem_intChars_pos_isDigit hd hc)]
    · intro hd
      rw [convert_eta, if_neg h1, if_neg hnot]
      simp only [List.filterMap_cons, List.filterMap_nil, if_neg (by omega : ¬ 0 < e.tdiv 86400)]
      have hnd : ∀ c ∈ (([((e.tmod 86400).tdiv 3600, 'h'), ((e.tmod 3600).tdiv 60, 'm'),
          (e.tmod 60, 's')] : List (Int × Char)).filterMap fun vu =>
            if 0 < vu.1 then some (intChars vu.1 ++ [vu.2]) else none).flatten, c ≠ 'd' := by
        apply no_d_in_pieces
        intro vu hvu
        simp only [List.mem_cons, List.mem_singleton, List.not_mem_nil, or_false] at hvu
        rcases hvu with h | h | h <;> rw [h] <;>
          first
          | exact (by decide : ('h' : Char) ≠ 'd')
          | exact (by decide : ('m' : Char) ≠ 'd')
          | exact (by decide : ('s' : Char) ≠ 'd')
      have hcont := contains_eq_false_of_not_mem (fun hm => hnd 'd' hm rfl)
      simp only [List.filterMap_cons, List.filterMap_nil] at hcont
      rw [hcont]
      simp only [Bool.false_eq_true, if_false]
      rw [etaSpecConcat]
      congr 1
      by_cases hh : 0 < (e.tmod 86400).tdiv 3600 <;>
        by_cases hm : 0 < (e.tmod 3600).tdiv 60 <;>
          by_cases hs : 0 < e.tmod 60 <;>
            simp [hh, hm, hs]

/-- Witness for C5 (amended), at the concrete inputs `e = 5400` (no day
component, renders `"1h30m"`) and `e = 90000` (day component alone). -/
theorem convert_eta_rendering_witness :
    (convert_eta 5400 = etaSpecConcat 5400 ∧ etaSpecConcat 5400 = "1h30m") ∧
    (convert_eta 90000 = String.mk (intChars (Int.tdiv 90000 86400) ++ ['d']) ∧
      String.mk (intChars (Int.tdiv 90000 86400) ++ ['d']) = "1d") :=
  ⟨⟨((convert_eta_rendering.2.2.2.1 5400 (by decide) (by decide) (by decide)).2 (by decide)),
    by decide⟩,
   ⟨((convert_eta_rendering.2.2.2.1 90000 (by decide) (by decide) (by decide)).1 (by decide)),
    by decide⟩⟩

/-! ## src/components/properties/files.rs — the path-tree builder -/

/-- The `data::Files` from src/data.rs: the payload a File leaf carries (the byte
counts arrive pre-formatted as strings). -/
structure Files where
  name : String
  downloaded : String
  total_size : String
  priority : String
  wanted : Bool
deriving DecidableEq

/-- The `Node` from src/components/properties/files.rs. -/
inductive Node where
  | File (data : Files)
  | Directory (name : String) (children : List Node)

/-- Rust `str::split('/')`: split a character list at every separator,
keeping empty segments, never returning an empty list. -/
def splitChar (sep : Char) : List Char → List (List Char)
  | [] => [[]]
  | c :: rest =>
    let r := splitChar sep rest
    if c = sep then [] :: r
    else
      match r with
      | [] => [[c]]
      | h :: t => (c :: h) :: t

/-- The `path.split('/')` as used by `parse_node`. -/
def splitPath (p : String) : List String :=
  (splitChar '/' p.data).map String.mk

/-- The search-and-update step inside `insert_into_tree`
(src/components/properties/files.rs lines 146-161): find the first existing
`Directory` child whose name matches exactly and update its children with
`upd`; if none matches, push a new empty `Directory` at the end and update
into it.  (The source's `children.last_mut().ok_or(...)` after the push can
never fail; the embedding applies `upd` to the just-pushed empty child
directly.) -/
def findAndInsert (name : String) (upd : List Node → List Node) : List Node → List Node
  | [] => [Node.Directory name (upd [])]
  | Node.File f :: tail => Node.File f :: findAndInsert name upd tail
  | Node.Directory n cs :: tail =>
    if n = name then Node.Directory n (upd cs) :: tail
    else Node.Directory n cs :: findAndInsert name upd tail

/-- The `insert_into_tree` from src/components/properties/files.rs: empty part
lists are a no-op, a single remaining part is always pushed as a `File` leaf,
and otherwise the current part selects (or creates) a `Directory` to recurse
into.  The source's `Result` return is always `Ok`; the embedding returns the
updated children directly. -/
def insert_into_tree : List Node → List String → Files → List Node
  | children, [], _ => children
  | children, [_], data => children ++ [Node.File data]
  | children, current :: rest, data =>
    findAndInsert current (fun cs => insert_into_tree cs rest data) children

/-- One input record of `parse_node`.  The source receives each record packed
into a single newline-separated string (built by the files tab's `render`)
and immediately splits it back into the path and the four payload fields; the
embedding takes the five fields directly. -/
structure FilePayload where
  path : String
  downloaded : String
  total_size : String
  priority : String
  wanted : Bool
deriving DecidableEq

/-- The `data::Files` record `parse_node` builds for one path: the leaf name
is the last `'/'`-segment of the path. -/
def pathData (p : FilePayload) : Files :=
  { name := (splitPath p.path).getLastD "", downloaded := p.downloaded,
    total_size := p.total_size, priority := p.priority, wanted := p.wanted }

/-- The loop body of `parse_node`: split the path and insert, guarded by the
source's `!parts.is_empty()` check (which never fails, as `split` never
yields an empty list). -/
def insertPath (nodes : List Node) (p : FilePayload) : List Node :=
  let parts := splitPath p.path
  if parts.isEmpty then nodes else insert_into_tree nodes parts (pathData p)

/-- The `parse_node` from src/components/properties/files.rs: fold the paths in
input order into an initially empty forest. -/
def parse_node (paths : List FilePayload) : List Node :=
  paths.foldl insertPath []

/-- The names of the `Directory` children at one level, in order. -/
def dirNames (nodes : List Node) : List String :=
  nodes.filterMap fun n =>
    match n with
    | Node.Directory d _ => some d
    | Node.File _ => none

/-- The `children.iter_mut().find(...)` test of `insert_into_tree`: does this
level already have a `Directory` child with exactly this name? -/
def hasDirNamed (children : List Node) (name : String) : Bool :=
  children.any fun n =>
    match n with
    | Node.Directory d _ => d = name
    | Node.File _ => false

/-- The Tree Node invariant of spec §3: sibling directory names are unique at
each level, recursively. -/
inductive ForestOk : List Node → Prop where
  | mk (nodes : List Node)
      (hsub : ∀ n cs, Node.Directory n cs ∈ nodes → ForestOk cs)
      (hnodup : (dirNames nodes).Nodup) : ForestOk nodes

mutual

/-- The leaves of one node, each tagged with the directory-name chain above
it. -/
def leafNode : Node → List (List String × Files)
  | Node.File f => [([], f)]
  | Node.Directory n cs => (leafList cs).map fun pf => (n :: pf.1, pf.2)

/-- The leaves of a forest, in traversal order. -/
def leafList : List Node → List (List String × Files)
  | [] => []
  | node :: rest => leafNode node ++ leafList rest

end

/-! Equation-shaped helper lemmas for the tree definitions. -/

theorem dirNames_nil : dirNames [] = [] := rfl

theorem dirNames_cons_file (f : Files) (t : List Node) :
    dirNames (Node.File f :: t) = dirNames t := by
  simp [dirNames, List.filterMap_cons]

theorem dirNames_cons_dir (n : String) (cs : List Node) (t : List Node) :
    dirNames (Node.Directory n cs :: t) = n :: dirNames t := by
  simp [dirNames, List.filterMap_cons]

theorem dirNames_append (l₁ l₂ : List Node) :
    dirNames (l₁ ++ l₂) = dirNames l₁ ++ dirNames l₂ := by
  simp [dirNames, List.filterMap_append]

theorem hasDirNamed_cons_file (f : Files) (t : List Node) (name : String) :
    hasDirNamed (Node.File f :: t) name = hasDirNamed t name := by
  simp [hasDirNamed, List.any_cons]

theorem hasDirNamed_cons_dir (n : String) (cs : List Node) (t : List Node) (name : String) :
    hasDirNamed (Node.Directory n cs :: t) name = (decide (n = name) || hasDirNamed t name) := by
  simp [hasDirNamed, List.any_cons]

theorem hasDirNamed_false_not_mem :
    ∀ (children : List Node) (name : String), hasDirNamed children name = false →
      name ∉ dirNames children := by
  intro children
  induction children with
  | nil => intro name _ h; simp [dirNames_nil] at h
  | cons x t ih =>
    intro name hx
    cases x with
    | File f =>
      rw [hasDirNamed_cons_file] at hx
      rw [dirNames_cons_file]
      exact ih name hx
    | Directory n cs =>
      rw [hasDirNamed_cons_dir] at hx
      rw [Bool.or_eq_false_iff] at hx
      rw [dirNames_cons_dir]
      intro hm
      rcases List.mem_cons.mp hm with h | h
      · rw [h] at hx
        simp at hx
      · exact ih name hx.2 h

theorem insert_cons_cons (children : List Node) (c₁ c₂ : String) (rest : List String)
    (data : Files) :
    insert_into_tree children (c₁ :: c₂ :: rest) data =
      findAndInsert c₁ (fun cs => insert_into_tree cs (c₂ :: rest) data) children := rfl

theorem leafList_append (l₁ l₂ : List Node) :
    leafList (l₁ ++ l₂) = leafList l₁ ++ leafList l₂ := by
  induction l₁ with
  | nil => simp [leafList]
  | cons x t ih => simp [leafList, ih, List.append_assoc]

/-! Insertion preserves the tree invariant. -/

theorem forestOk_nil : ForestOk [] :=
  ForestOk.mk [] (by intro n cs h; cases h) (by simp [dirNames_nil])

theorem ForestOk.sub {nodes : List Node} (h : ForestOk nodes) {n : String} {cs : List Node}
    (hm : Node.Directory n cs ∈ nodes) : ForestOk cs := by
  cases h with
  | mk _ hsub _ => exact hsub n cs hm

theorem ForestOk.names {nodes : List Node} (h : ForestOk nodes) : (dirNames nodes).Nodup := by
  cases h with
  | mk _ _ hnodup => exact hnodup

theorem ForestOk.tail {x : Node} {t : List Node} (h : ForestOk (x :: t)) : ForestOk t := by
  refine ForestOk.mk t (fun n cs hm => h.sub (List.mem_cons_of_mem x hm)) ?_
  have := h.names
  cases x with
  | File f => rwa [dirNames_cons_file] at this
  | Directory n cs =>
    rw [dirNames_cons_dir] at this
    exact this.of_cons

theorem forestOk_cons_file {t : List Node} (f : Files) (h : ForestOk t) :
    ForestOk (Node.File f :: t) := by
  refine ForestOk.mk _ ?_ ?_
  · intro n cs hm
    rcases List.mem_cons.mp hm with hm | hm
    · cases hm
    · exact h.sub hm
  · rw [dirNames_cons_file]
    exact h.names

theorem findAndInsert_dirNames_found (name : String) (upd : List Node → List Node) :
    ∀ children : List Node, hasDirNamed children name = true →
      dirNames (findAndInsert name upd children) = dirNames children := by
  intro children
  induction children with
  | nil => intro h; simp [hasDirNamed] at h
  | cons x t ih =>
    intro hx
    cases x with
    | File f =>
      rw [hasDirNamed_cons_file] at hx
      rw [findAndInsert, dirNames_cons_file, dirNames_cons_file]
      exact ih hx
    | Directory n cs =>
      rw [hasDirNamed_cons_dir] at hx
      by_cases hn : n = name
      · rw [findAndInsert, if_pos hn, dirNames_cons_dir, dirNames_cons_dir]
      · rw [findAndInsert, if_neg hn, dirNames_cons_dir, dirNames_cons_dir]
        rw [Bool.or_eq_true_iff] at hx
        rcases hx with hx | hx
        · exact absurd (of_decide_eq_true hx) hn
        · rw [ih hx]

theorem findAndInsert_dirNames_missing (name : String) (upd : List Node → List Node) :
    ∀ children : List Node, hasDirNamed children name = false →
      dirNames (findAndInsert name upd children) = dirNames children ++ [name] := by
  intro children
  induction children with
  | nil => intro _; simp [findAndInsert, dirNames_cons_dir, dirNames_nil]
  | cons x t ih =>
    intro hx
    cases x with
    | File f =>
      rw [hasDirNamed_cons_file] at hx
      rw [findAndInsert, dirNames_cons_file, dirNames_cons_file]
      exact ih hx
    | Directory n cs =>
      rw [hasDirNamed_cons_dir, Bool.or_eq_false_iff] at hx
      have hn : n ≠ name := by
        intro h
        rw [h] at hx
        simp at hx
      rw [findAndInsert, if_neg hn, dirNames_cons_dir, dirNames_cons_dir, ih hx.2,
        List.cons_append]

theorem findAndInsert_forestOk (name : String) (upd : List Node → List Node)
    (hupd : ∀ cs, ForestOk cs → ForestOk (upd cs)) :
    ∀ children : List Node, ForestOk children → ForestOk (findAndInsert name upd children) := by
  intro children
  induction children with
  | nil =>
    intro _
    rw [findAndInsert]
    refine ForestOk.mk _ ?_ ?_
    · intro n cs hm
      rcases List.mem_cons.mp hm with hm | hm
      · cases hm
        exact hupd [] forestOk_nil
      · cases hm
    · simp [dirNames_cons_dir, dirNames_nil]
  | cons x t ih =>
    intro h
    cases x with
    | File f =>
      rw [findAndInsert]
      exact forestOk_cons_file f (ih h.tail)
    | Directory n cs =>
      by_cases hn : n = name
      · rw [findAndInsert, if_pos hn]
        refine ForestOk.mk _ ?_ ?_
        · intro n' cs' hm
          rcases List.mem_cons.mp hm with hm | hm
          · cases hm
            exact hupd cs (h.sub (List.mem_cons_self _ _))
          · exact h.sub (List.mem_cons_of_mem _ hm)
        · rw [dirNames_cons_dir]
          have := h.names
          rwa [dirNames_cons_dir] at this
      · rw [findAndInsert, if_neg hn]
        refine ForestOk.mk _ ?_ ?_
        · intro n' cs' hm
          rcases List.mem_cons.mp hm with hm | hm
          · cases hm
            exact h.sub (List.mem_cons_self _ _)
          · exact (ih h.tail).sub hm
        · rw [dirNames_cons_dir]
          have hnames := h.names
          rw [dirNames_cons_dir] at hnames
          rcases hcase : hasDirNamed t name with _ | _
          · rw [findAndInsert_dirNames_missing name upd t hcase]
            rw [List.nodup_cons] at hnames ⊢
            refine ⟨?_, ?_⟩
            · intro hm
              rcases List.mem_append.mp hm with hm | hm
              · exact hnames.1 hm
              · rw [List.mem_singleton] at hm
                exact hn hm
            · have hnotmem := hasDirNamed_false_not_mem t name hcase
              refine List.Nodup.append hnames.2 (by simp) ?_
              intro a ha hb
              rw [List.mem_singleton] at hb
              rw [hb] at ha
              exact hnotmem ha
          · rw [findAndInsert_dirNames_found name upd t hcase]
            exact hnames

theorem forestOk_append_file {children : List Node} (data : Files) (h : ForestOk children) :
    ForestOk (children ++ [Node.File data]) := by
  refine ForestOk.mk _ ?_ ?_
  · intro n cs hm
    rcases List.mem_append.mp hm with hm | hm
    · exact h.sub hm
    · rw [List.mem_singleton] at hm
      cases hm
  · rw [dirNames_append, dirNames_cons_file, dirNames_nil, List.append_nil]
    exact h.names

theorem insert_forestOk :
    ∀ (parts : List String) (children : List Node) (data : Files), ForestOk children →
      ForestOk (insert_into_tree children parts data) := by
  intro parts
  induction parts with
  | nil => intro children data h; exact h
  | cons current rest ih =>
    intro children data h
    cases rest with
    | nil => exact forestOk_append_file data h
    | cons r rs =>
      rw [insert_cons_cons]
      exact findAndInsert_forestOk current _ (fun cs hcs => ih cs data hcs) children h

/-! Insertion adds exactly one leaf, at the chain named by the path's
directory segments. -/

theorem findAndInsert_leaf_perm (name : String) (upd : List Node → List Node)
    (q : List String × Files)
    (hupd : ∀ cs, (leafList (upd cs)).Perm (q :: leafList cs)) :
    ∀ children : List Node,
      (leafList (findAndInsert name upd children)).Perm
        ((name :: q.1, q.2) :: leafList children) := by
  intro children
  induction children with
  | nil =>
    rw [findAndInsert]
    simp only [leafList, leafNode, List.append_nil]
    have h0 := (hupd []).map fun pf => ((name :: pf.1, pf.2) : List String × Files)
    simp only [leafList, List.map_cons, List.map_nil] at h0
    exact h0
  | cons x t ih =>
    cases x with
    | File f =>
      rw [findAndInsert]
      simp only [leafList, leafNode, List.singleton_append]
      exact (ih.cons _).trans (List.Perm.swap _ _ _)
    | Directory n cs =>
      by_cases hn : n = name
      · subst hn
        rw [findAndInsert, if_pos rfl]
        simp only [leafList, leafNode]
        have hmap := (hupd cs).map fun pf => ((n :: pf.1, pf.2) : List String × Files)
        rw [List.map_cons] at hmap
        exact (hmap.append_right _).trans (by rw [List.cons_append])
      · rw [findAndInsert, if_neg hn]
        simp only [leafList, leafNode]
        exact (List.Perm.append_left _ ih).trans List.perm_middle

theorem insert_leaf_perm :
    ∀ (parts : List String) (children : List Node) (data : Files), parts ≠ [] →
      (leafList (insert_into_tree children parts data)).Perm
        ((parts.dropLast, data) :: leafList children) := by
  intro parts
  induction parts with
  | nil => intro children data h; exact absurd rfl h
  | cons current rest ih =>
    intro children data _
    cases rest with
    | nil =>
      rw [show insert_into_tree children [current] data = children ++ [Node.File data] from rfl]
      rw [leafList_append]
      simp only [leafList, leafNode, List.append_nil, List.dropLast_single]
      exact List.perm_append_singleton _ _
    | cons r rs =>
      rw [insert_cons_cons]
      exact findAndInsert_leaf_perm current _ ((r :: rs).dropLast, data)
        (fun cs => ih cs data (by simp)) children

theorem splitChar_ne_nil (sep : Char) : ∀ cs : List Char, splitChar sep cs ≠ [] := by
  intro cs
  cases cs with
  | nil => simp [splitChar]
  | cons c rest =>
    rw [splitChar]
    by_cases h : c = sep
    · simp [h]
    · rw [if_neg h]
      rcases splitChar sep rest with _ | ⟨h', t'⟩ <;> simp

theorem splitPath_ne_nil (p : String) : splitPath p ≠ [] := by
  rw [splitPath]
  intro h
  exact splitChar_ne_nil '/' p.data (List.map_eq_nil_iff.mp h)

theorem foldl_leaf_perm :
    ∀ (ps : List FilePayload) (init : List Node),
      (leafList (ps.foldl insertPath init)).Perm
        ((ps.map fun p => ((splitPath p.path).dropLast, pathData p)) ++ leafList init) := by
  intro ps
  induction ps with
  | nil => intro init; simp
  | cons p t ih =>
    intro init
    rw [List.foldl_cons, List.map_cons, List.cons_append]
    have hstep : (leafList (insertPath init p)).Perm
        (((splitPath p.path).dropLast, pathData p) :: leafList init) := by
      rw [insertPath]
      rw [if_neg (by simpa [List.isEmpty_iff] using splitPath_ne_nil p.path)]
      exact insert_leaf_perm (splitPath p.path) init (pathData p) (splitPath_ne_nil p.path)
    exact ((ih _).trans ((List.Perm.append_left _ hstep).trans List.perm_middle))

theorem parse_node_forestOk :
    ∀ (ps : List FilePayload) (init : List Node), ForestOk init →
      ForestOk (ps.foldl insertPath init) := by
  intro ps
  induction ps with
  | nil => intro init h; exact h
  | cons p t ih =>
    intro init h
    rw [List.foldl_cons]
    refine ih _ ?_
    rw [insertPath]
    by_cases he : (splitPath p.path).isEmpty
    · rwa [if_pos he]
    · rw [if_neg he]
      exact insert_forestOk _ init (pathData p) h

/-! ## Claim C3: the path-tree building algorithm -/

/-- C3: the tree builder processes paths in input order (final conjunct);
a path's final segment is always appended as a `File` leaf without
deduplication (second and third conjuncts: two identical full paths produce
two sibling leaves); at each level an existing sibling `Directory` is reused
on exact name match, positions of earlier siblings preserved (fourth
conjunct), and otherwise a new empty `Directory` is appended at the end
(fifth conjunct); in particular `["a/b/c", "a/b/d", "x"]` builds one
Directory "a" containing Directory "b" containing File leaves "c" and "d",
sibling to one File leaf "x", in first-seen order (first conjunct). -/
theorem tree_builder_spec :
    (parse_node [⟨"a/b/c", "dc", "tc", "pc", true⟩, ⟨"a/b/d", "dd", "td", "pd", false⟩,
        ⟨"x", "dx", "tx", "px", true⟩] =
      [Node.Directory "a" [Node.Directory "b"
          [Node.File ⟨"c", "dc", "tc", "pc", true⟩, Node.File ⟨"d", "dd", "td", "pd", false⟩]],
        Node.File ⟨"x", "dx", "tx", "px", true⟩]) ∧
    (∀ (children : List Node) (lastSeg : String) (data : Files),
      insert_into_tree children [lastSeg] data = children ++ [Node.File data]) ∧
    (parse_node [⟨"a/b", "d1", "t1", "p1", true⟩, ⟨"a/b", "d1", "t1", "p1", true⟩] =
      [Node.Directory "a" [Node.File ⟨"b", "d1", "t1", "p1", true⟩,
        Node.File ⟨"b", "d1", "t1", "p1", true⟩]]) ∧
    (∀ (pre post : List Node) (name : String) (cs : List Node) (r : String)
        (rs : List String) (data : Files), hasDirNamed pre name = false →
      insert_into_tree (pre ++ Node.Directory name cs :: post) (name :: r :: rs) data =
        pre ++ Node.Directory name (insert_into_tree cs (r :: rs) data) :: post) ∧
    (∀ (children : List Node) (name : String) (r : String) (rs : List String) (data : Files),
      hasDirNamed children name = false →
      insert_into_tree children (name :: r :: rs) data =
        children ++ [Node.Directory name (insert_into_tree [] (r :: rs) data)]) ∧
    (∀ (ps : List FilePayload) (p : FilePayload),
      parse_node (ps ++ [p]) = insertPath (parse_node ps) p) := by
  refine ⟨rfl, fun children lastSeg data => rfl, rfl, ?_, ?_, ?_⟩
  · intro pre post name cs r rs data hpre
    rw [insert_cons_cons]
    induction pre with
    | nil =>
      rw [List.nil_append, List.nil_append, findAndInsert, if_pos rfl]
    | cons x t ih =>
      cases x with
      | File f =>
        rw [hasDirNamed_cons_file] at hpre
        rw [List.cons_append, findAndInsert, ih hpre, List.cons_append]
      | Directory n cs' =>
        rw [hasDirNamed_cons_dir, Bool.or_eq_false_iff] at hpre
        have hn : n ≠ name := by
          intro h
          rw [h] at hpre
          simp at hpre
        rw [List.cons_append, findAndInsert, if_neg hn, ih hpre.2, List.cons_append]
  · intro children name r rs data hch
    rw [insert_cons_cons]
    induction children with
    | nil => rw [findAndInsert, List.nil_append]
    | cons x t ih =>
      cases x with
      | File f =>
        rw [hasDirNamed_cons_file] at hch
        rw [findAndInsert, ih hch, List.cons_append]
      | Directory n cs' =>
        rw [hasDirNamed_cons_dir, Bool.or_eq_false_iff] at hch
        have hn : n ≠ name := by
          intro h
          rw [h] at hch
          simp at hch
        rw [findAndInsert, if_neg hn, ih hch.2, List.cons_append]
  · intro ps p
    rw [parse_node, parse_node, List.foldl_append, List.foldl_cons, List.foldl_nil]

/-- Witness for C3, instantiating the reuse and append conjuncts at concrete
forests. -/
theorem tree_builder_spec_witness :
    (insert_into_tree
        ([Node.File ⟨"x", "dx", "tx", "px", true⟩] ++
          Node.Directory "m" [] :: []) ["m", "n"] ⟨"n", "", "", "", true⟩ =
      [Node.File ⟨"x", "dx", "tx", "px", true⟩] ++
        Node.Directory "m" (insert_into_tree [] ["n"] ⟨"n", "", "", "", true⟩) :: []) ∧
    (insert_into_tree [Node.File ⟨"x", "dx", "tx", "px", true⟩] ["m", "n"] ⟨"n", "", "", "", true⟩ =
      [Node.File ⟨"x", "dx", "tx", "px", true⟩] ++
        [Node.Directory "m" (insert_into_tree [] ["n"] ⟨"n", "", "", "", true⟩)]) :=
  ⟨tree_builder_spec.2.2.2.1 [Node.File ⟨"x", "dx", "tx", "px", true⟩] [] "m" [] "n" [] _
      (by decide),
   tree_builder_spec.2.2.2.2.1 [Node.File ⟨"x", "dx", "tx", "px", true⟩] "m" "n" [] _
      (by decide)⟩

/-! ## Claim C8: invariants of the built forest -/

/-- C8: in every forest the path-tree builder produces, sibling directory
names are unique at each level (recursively), and the leaves — each a `File`
node at the end of the chain of `Directory` nodes named by its path's
segments — correspond one-to-one to the input paths: the multiset of
(directory chain, leaf payload) pairs equals the multiset of
(all-but-last segments, record) pairs of the input. -/
theorem tree_invariants (ps : List FilePayload) :
    ForestOk (parse_node ps) ∧
    (leafList (parse_node ps)).Perm
      (ps.map fun p => ((splitPath p.path).dropLast, pathData p)) := by
  constructor
  · exact parse_node_forestOk ps [] forestOk_nil
  · have h := foldl_leaf_perm ps []
    rw [leafList, List.append_nil] at h
    exact h

/-! ## String ordering

Rust's `str::cmp` compares UTF-8 bytes lexicographically, which coincides
with code-point order, modelled on the character lists. -/

/-- Lexicographic "less or equal" on character lists by code point: the order
`sorted_by(|a, b| a.name.cmp(&b.name))` sorts by. -/
def lexLe : List Char → List Char → Bool
  | [], _ => true
  | _ :: _, [] => false
  | a :: as, b :: bs =>
    if a.toNat < b.toNat then true
    else if b.toNat < a.toNat then false
    else lexLe as bs

theorem lexLe_refl : ∀ l : List Char, lexLe l l = true := by
  intro l
  induction l with
  | nil => rfl
  | cons a as ih =>
    rw [lexLe, if_neg (by omega), if_neg (by omega)]
    exact ih

theorem lexLe_total : ∀ a b : List Char, lexLe a b = true ∨ lexLe b a = true := by
  intro a
  induction a with
  | nil => intro b; exact Or.inl rfl
  | cons x xs ih =>
    intro b
    cases b with
    | nil => exact Or.inr rfl
    | cons y ys =>
      rw [lexLe, lexLe]
      by_cases hxy : x.toNat < y.toNat
      · rw [if_pos hxy]
        exact Or.inl rfl
      · by_cases hyx : y.toNat < x.toNat
        · rw [if_neg hxy, if_pos hyx, if_pos hyx]
          exact Or.inr rfl
        · rw [if_neg hxy, if_neg hyx, if_neg hyx, if_neg hxy]
          exact ih ys

theorem lexLe_trans : ∀ a b c : List Char,
    lexLe a b = true → lexLe b c = true → lexLe a c = true := by
  intro a
  induction a with
  | nil => intro b c _ _; rfl
  | cons x xs ih =>
    intro b c hab hbc
    cases b with
    | nil => rw [lexLe] at hab; cases hab
    | cons y ys =>
      cases c with
      | nil => rw [lexLe] at hbc; cases hbc
      | cons z zs =>
        rw [lexLe] at hab hbc ⊢
        by_cases hxy : x.toNat < y.toNat
        · rw [if_pos hxy] at hab
          by_cases hyz : y.toNat < z.toNat
          · rw [if_pos (by omega : x.toNat < z.toNat)]
          · rw [if_neg hyz] at hbc
            by_cases hzy : z.toNat < y.toNat
            · rw [if_pos hzy] at hbc; cases hbc
            · rw [if_pos (by omega : x.toNat < z.toNat)]
        · rw [if_neg hxy] at hab
          by_cases hyx : y.toNat < x.toNat
          · rw [if_pos hyx] at hab; cases hab
          · rw [if_neg hyx] at hab
            by_cases hyz : y.toNat < z.toNat
            · rw [if_pos (by omega : x.toNat < z.toNat)]
            · rw [if_neg hyz] at hbc
              by_cases hzy : z.toNat < y.toNat
              · rw [if_pos hzy] at hbc; cases hbc
              · rw [if_neg hzy] at hbc
                rw [if_neg (by omega : ¬ x.toNat < z.toNat),
                  if_neg (by omega : ¬ z.toNat < x.toNat)]
                exact ih ys zs hab hbc

/-! ## src/data.rs — the data mapper -/

/-- The `data::Tracker` (src/data.rs): the `next_announce` timestamp is a
`DateTime`, modelled as its Unix timestamp. -/
structure Tracker where
  host : String
  is_backup : Bool
  next_announce : Int
deriving DecidableEq

/-- A raw tracker entry of the RPC response (`TrackerStats`): these fields
are not optional in the transport's type. -/
structure RawTracker where
  host : String
  is_backup : Bool
  next_announce_time : Int
deriving DecidableEq

/-- A raw file entry of the RPC response (`File`): not optional. -/
structure RawFile where
  name : String
  bytes_completed : Int
  length : Int
deriving DecidableEq

/-- A raw file-stats entry of the RPC response (`FileStat`). -/
structure RawFileStat where
  priority : Priority
  wanted : Bool
deriving DecidableEq

/-- The raw per-torrent RPC response (`transmission_rpc::types::Torrent`):
every field the mappers read is `Option`al in the transport's type. -/
structure RawTorrent where
  id : Option Int
  is_stalled : Option Bool
  name : Option String
  status : Option TorrentStatus
  percent_done : Option F32
  eta : Option Int
  rate_upload : Option Int
  rate_download : Option Int
  upload_ratio : Option F32
  size_when_done : Option Int
  left_until_done : Option Int
  total_size : Option Int
  uploaded_ever : Option Int
  download_dir : Option String
  hash_string : Option String
  added_date : Option Int
  done_date : Option Int
  error_string : Option String
  tracker_stats : Option (List RawTracker)
  files : Option (List RawFile)
  file_stats : Option (List RawFileStat)
deriving DecidableEq

/-- The `data::Torrent` (src/data.rs): the fully mapped display record.
`added_date`/`done_date` are `DateTime`s, modelled as Unix timestamps. -/
structure Torrent where
  id : Int
  is_stalled : Bool
  status : String
  name : String
  formatted_name : String
  percent_done : String
  total_size : String
  size_done : String
  uploaded : String
  upload_speed : String
  downloaded : String
  download_speed : String
  ratio : String
  location : String
  hash : String
  added_date : Int
  done_date : Int
  eta : String
  error : String
  trackers : List Tracker
  files : List Files
deriving DecidableEq

/-- The `chrono::DateTime::from_timestamp(secs, 0)`: `None` outside chrono's
representable range (the exact endpoint constants are chrono's
±262 000-year bounds; no claim depends on their precise values). -/
def dateFromTimestamp (secs : Int) : Option Int :=
  if -8334601228800 ≤ secs ∧ secs ≤ 8210298412799 then some secs else none

/-- The name shortening applied by both mappers: `raw_name.truncate(80)` plus
`"..."` when longer than 80.  Rust's `len`/`truncate` count UTF-8 bytes;
the embedding counts characters, which agrees on ASCII names. -/
def truncateName (raw : String) : String :=
  if 80 < raw.length then String.mk (raw.data.take 80) ++ "..." else raw

/-- The file sub-records built by both record mappers: the inner
`filter_map` over `files.iter().enumerate()`, whose own `?`s
(`t.file_stats.clone()?`, `file_stats.get(i)?`) drop individual file entries
without dropping the parent record. -/
def mapFiles (rawFiles : List RawFile) (fileStatsOpt : Option (List RawFileStat)) : List Files :=
  rawFiles.enum.filterMap fun p =>
    fileStatsOpt.bind fun fileStats =>
    (fileStats.get? p.1).bind fun fs =>
    some (Files.mk p.2.name (convert_bytes p.2.bytes_completed) (convert_bytes p.2.length)
      (convert_priority fs.priority) fs.wanted)

/-- The per-record closure of `map_torrent_data` (src/data.rs lines 112-173):
`?`-chained on every required field, so the whole record maps to `None` as
soon as one is absent.  The `?`-chain is modelled as a simultaneous match on
the required fields, which is equivalent (`?` short-circuits to `None`
exactly when some required field is `None`); the two `DateTime` conversions
keep their own fallible step.  The source reads `t.name` twice (for the
truncated display copy and the raw field); both reads see the same value. -/
def mapOne (t : RawTorrent) : Option Torrent :=
  match t.tracker_stats, t.files, t.name, t.status, t.size_when_done, t.left_until_done,
      t.id, t.is_stalled, t.eta, t.upload_ratio, t.percent_done, t.total_size,
      t.uploaded_ever, t.rate_upload, t.rate_download, t.download_dir, t.hash_string,
      t.added_date, t.done_date, t.error_string with
  | some trackerStats, some rawFiles, some nm, some st, some swd, some lud, some id,
      some is_stalled, some etaRaw, some ur, some pd, some tsz, some ue, some ru, some rd,
      some dl, some hs, some ad, some dd, some es =>
    (dateFromTimestamp ad).bind fun adv =>
    (dateFromTimestamp dd).bind fun ddv =>
    let trackers := trackerStats.map fun tr =>
      Tracker.mk tr.host tr.is_backup tr.next_announce_time
    let files := mapFiles rawFiles t.file_stats
    let raw_name := truncateName nm
    let status := convert_status st
    let downloaded := convert_bytes (swd - lud)
    let size_done := convert_bytes swd
    let formatted_name :=
      raw_name ++ "\nStatus: " ++ status ++ "    Have: " ++ downloaded ++ " of " ++ size_done
    some (Torrent.mk id is_stalled status nm formatted_name (convert_percentage pd)
      (convert_bytes tsz) size_done (convert_bytes ue) (convert_bytes ru ++ "/s") downloaded
      (convert_bytes rd ++ "/s") (handle_ratio ur) dl hs adv ddv (convert_eta etaRaw) es
      trackers files)
  | _, _, _, _, _, _, _, _, _, _, _, _, _, _, _, _, _, _, _, _ => none

/-- The sort key of `sorted_by(|a, b| a.name.cmp(&b.name))` in src/data.rs:
byte-lexicographic order on the raw `name` field. -/
def torrentLe (a b : Torrent) : Prop :=
  lexLe a.name.data b.name.data = true

instance : DecidableRel torrentLe :=
  fun _ _ => inferInstanceAs (Decidable (_ = true))

instance : IsTotal Torrent torrentLe :=
  ⟨fun a b => lexLe_total a.name.data b.name.data⟩

instance : IsTrans Torrent torrentLe :=
  ⟨fun a b c => lexLe_trans a.name.data b.name.data c.name.data⟩

/-- Modelled from the spec: the error taxonomy of §7 lives in `src/app.rs`,
which is not among the provided sources; the constructors are the ones the
provided sources reference (`AppError::NoRowSelected`, `AppError::OutOfBound`,
`app::Error::WithMessage`). -/
inductive AppError where
  | NoRowSelected
  | OutOfBound
  | WithMessage (msg : String)
deriving DecidableEq

/-- Modelled from the spec: the `Display` rendering of `AppError` (used when a
handler converts a failure into an `Error(message)` action) is in the missing
`src/app.rs`; the claims do not depend on the exact message texts. -/
def errToString : AppError → String
  | AppError.NoRowSelected => "no row selected"
  | AppError.OutOfBound => "out of bound"
  | AppError.WithMessage msg => msg

/-- The `map_torrent_data` from src/data.rs: one request through the shared
transport (`Some(vec![Id(id)])` for a single-identity filter, `None` for
all), a typed failure on transport error, otherwise the `filter_map`ped
records, stably sorted by name.  `itertools::sorted_by` is a stable sort, so
it is modelled by insertion sort with the non-strict key order. -/
def map_torrent_data (transport : Option (List Int) → Except String (List RawTorrent))
    (id : Option Int) : Except AppError (List Torrent) :=
  match transport (match id with | some i => some [i] | none => none) with
  | Except.error err => Except.error (AppError.WithMessage err)
  | Except.ok torrents => Except.ok (List.insertionSort torrentLe (torrents.filterMap mapOne))

/-! ## src/components/home.rs — the List view's own mapper -/

/-- The `Data` from src/components/home.rs: the List-view row record; `name` is
the displayed multi-line cell (truncated name plus status line). -/
structure Data where
  id : Int
  is_stalled : Bool
  name : String
  done : String
  eta : String
  upload_speed : String
  download_speed : String
  ratio : String
deriving DecidableEq

/-- The per-record closure of `get_torrent_data` (src/components/home.rs
lines 342-372), `?`-chained on every required field (modelled as a
simultaneous match, as in `mapOne`). -/
def mapOneHome (t : RawTorrent) : Option Data :=
  match t.name, t.percent_done, t.eta, t.rate_upload, t.rate_download, t.upload_ratio,
      t.status, t.size_when_done, t.left_until_done, t.id, t.is_stalled with
  | some rawName0, some pd, some etaRaw, some ru, some rd, some ur, some st, some swd,
      some lud, some id, some is_stalled =>
    let raw_name := truncateName rawName0
    let nm := raw_name ++ "\nStatus: " ++ convert_status st ++ "    Have: " ++
      convert_bytes (swd - lud) ++ " of " ++ convert_bytes swd
    some (Data.mk id is_stalled nm (convert_percentage pd) (convert_eta etaRaw)
      (convert_bytes ru ++ "/s") (convert_bytes rd ++ "/s") (handle_ratio ur))
  | _, _, _, _, _, _, _, _, _, _, _ => none

/-- The sort key of src/components/home.rs `sorted_by(|a, b| a.name.cmp(&b.name))`:
here `name` is the formatted display string. -/
def dataLe (a b : Data) : Prop :=
  lexLe a.name.data b.name.data = true

instance : DecidableRel dataLe :=
  fun _ _ => inferInstanceAs (Decidable (_ = true))

instance : IsTotal Data dataLe :=
  ⟨fun a b => lexLe_total a.name.data b.name.data⟩

instance : IsTrans Data dataLe :=
  ⟨fun a b c => lexLe_trans a.name.data b.name.data c.name.data⟩

/-- The `get_torrent_data` from src/components/home.rs: requests the full
collection (`torrent_get(None, None)`), maps total-or-drop per record, and
stably sorts by the display name. -/
def get_torrent_data (transport : Option (List Int) → Except String (List RawTorrent)) :
    Except AppError (List Data) :=
  match transport none with
  | Except.error err => Except.error (AppError.WithMessage err)
  | Except.ok torrents => Except.ok (List.insertionSort dataLe (torrents.filterMap mapOneHome))

/-! ## src/components/properties.rs — the Detail view's mapper -/

/-- The `TorrentData` from src/components/properties.rs (no `id` field — the
Detail record does not carry the identity it was fetched for). -/
structure TorrentData where
  is_stalled : Bool
  name : String
  percent_done : String
  total_size : String
  size_done : String
  uploaded : String
  downloaded : String
  ratio : String
  location : String
  hash : String
  added_date : Int
  done_date : Int
  eta : String
  error : String
  trackers : List Tracker
  files : List Files
deriving DecidableEq

/-- The per-record closure of `map_torrent_data` in
src/components/properties.rs (lines 159-204), `?`-chained on every required
field (modelled as a simultaneous match, as in `mapOne`). -/
def mapOneProps (t : RawTorrent) : Option TorrentData :=
  match t.tracker_stats, t.files, t.is_stalled, t.name, t.eta, t.upload_ratio,
      t.percent_done, t.total_size, t.size_when_done, t.left_until_done, t.uploaded_ever,
      t.download_dir, t.hash_string, t.added_date, t.done_date, t.error_string with
  | some trackerStats, some rawFiles, some is_stalled, some nm, some etaRaw, some ur,
      some pd, some tsz, some swd, some lud, some ue, some dl, some hs, some ad, some dd,
      some es =>
    (dateFromTimestamp ad).bind fun adv =>
    (dateFromTimestamp dd).bind fun ddv =>
    let trackers := trackerStats.map fun tr =>
      Tracker.mk tr.host tr.is_backup tr.next_announce_time
    let files := mapFiles rawFiles t.file_stats
    some (TorrentData.mk is_stalled nm (convert_percentage pd) (convert_bytes tsz)
      (convert_bytes swd) (convert_bytes ue) (convert_bytes (swd - lud)) (handle_ratio ur)
      dl hs adv ddv (convert_eta etaRaw) es trackers files)
  | _, _, _, _, _, _, _, _, _, _, _, _, _, _, _, _ => none

/-- The `map_torrent_data` from src/components/properties.rs: requests the single
identity `Some(vec![Id(id)])`, maps the first mappable record
(`filter_map(..).next()`), and fails with `OutOfBound` when none maps. -/
def map_torrent_data_props (transport : Option (List Int) → Except String (List RawTorrent))
    (id : Int) : Except AppError TorrentData :=
  match transport (some [id]) with
  | Except.error err => Except.error (AppError.WithMessage err)
  | Except.ok torrents =>
    match (torrents.filterMap mapOneProps).head? with
    | some d => Except.ok d
    | none => Except.error AppError.OutOfBound

/-! ## Claim C6: record mapping is total-or-drop -/

/-- C6: per raw record, (1) an included record is fully populated — every
required field was present (and both timestamps convertible), and the record
is exactly the one assembled from those field values; (2) if any required
field is absent the whole record maps to `none`, excluding it from the
collection; (3) a successful poll maps to a successful (`ok`) result
regardless of how many records were dropped — a drop is never reported as an
error. -/
theorem map_total_or_drop :
    (∀ (t : RawTorrent) (r : Torrent), mapOne t = some r →
      ∃ trackerStats rawFiles nm st swd lud idv isst etaRaw ur pd tsz ue ru rd dl hs
        ad adv dd ddv es,
        t.tracker_stats = some trackerStats ∧ t.files = some rawFiles ∧ t.name = some nm ∧
        t.status = some st ∧ t.size_when_done = some swd ∧ t.left_until_done = some lud ∧
        t.id = some idv ∧ t.is_stalled = some isst ∧ t.eta = some etaRaw ∧
        t.upload_ratio = some ur ∧ t.percent_done = some pd ∧ t.total_size = some tsz ∧
        t.uploaded_ever = some ue ∧ t.rate_upload = some ru ∧ t.rate_download = some rd ∧
        t.download_dir = some dl ∧ t.hash_string = some hs ∧ t.added_date = some ad ∧
        dateFromTimestamp ad = some adv ∧ t.done_date = some dd ∧
        dateFromTimestamp dd = some ddv ∧ t.error_string = some es ∧
        r = Torrent.mk idv isst (convert_status st) nm
          (truncateName nm ++ "\nStatus: " ++ convert_status st ++ "    Have: " ++
            convert_bytes (swd - lud) ++ " of " ++ convert_bytes swd)
          (convert_percentage pd) (convert_bytes tsz) (convert_bytes swd) (convert_bytes ue)
          (convert_bytes ru ++ "/s") (convert_bytes (swd - lud)) (convert_bytes rd ++ "/s")
          (handle_ratio ur) dl hs adv ddv (convert_eta etaRaw) es
          (trackerStats.map fun tr => Tracker.mk tr.host tr.is_backup tr.next_announce_time)
          (mapFiles rawFiles t.file_stats)) ∧
    (∀ t : RawTorrent,
      (t.tracker_stats = none ∨ t.files = none ∨ t.name = none ∨ t.status = none ∨
       t.size_when_done = none ∨ t.left_until_done = none ∨ t.id = none ∨
       t.is_stalled = none ∨ t.eta = none ∨ t.upload_ratio = none ∨ t.percent_done = none ∨
       t.total_size = none ∨ t.uploaded_ever = none ∨ t.rate_upload = none ∨
       t.rate_download = none ∨ t.download_dir = none ∨ t.hash_string = none ∨
       t.added_date = none ∨ t.done_date = none ∨ t.error_string = none) →
      mapOne t = none) ∧
    (∀ raws : List RawTorrent, ∃ l, map_torrent_data (fun _ => Except.ok raws) none =
      Except.ok l) := by
  refine ⟨?_, ?_, fun raws => ⟨_, rfl⟩⟩
  · intro t r h
    rw [mapOne] at h
    split at h
    case _ trackerStats rawFiles nm st swd lud idv isst etaRaw ur pd tsz ue ru rd dl hs
        ad dd es htr hfi hnm hst hswd hlud hid hiss heta hur hpd htsz hue hru hrd hdl hhs
        had hdd hes =>
      cases hadv : dateFromTimestamp ad with
      | none => rw [hadv] at h; cases h
      | some adv =>
        cases hddv : dateFromTimestamp dd with
        | none => rw [hadv, hddv] at h; cases h
        | some ddv =>
          rw [hadv, hddv] at h
          simp only [Option.some_bind, Option.some.injEq] at h
          exact ⟨trackerStats, rawFiles, nm, st, swd, lud, idv, isst, etaRaw, ur, pd, tsz,
            ue, ru, rd, dl, hs, ad, adv, dd, ddv, es, htr, hfi, hnm, hst, hswd, hlud, hid,
            hiss, heta, hur, hpd, htsz, hue, hru, hrd, hdl, hhs, had, hadv, hdd, hddv, hes,
            h.symm⟩
    case _ => cases h
  · intro t hm
    rcases hm with hm | hm | hm | hm | hm | hm | hm | hm | hm | hm | hm | hm | hm | hm |
      hm | hm | hm | hm | hm | hm <;>
      (rw [mapOne]; split <;> simp_all)

/-- A fully populated raw record for the C6 witness. -/
def c6Raw : RawTorrent :=
  { id := some 7, is_stalled := some false, name := some "alpha",
    status := some TorrentStatus.Downloading, percent_done := some ⟨1, 2⟩,
    eta := some 3600, rate_upload := some 2048, rate_download := some 1024,
    upload_ratio := some ⟨1, 1⟩, size_when_done := some 4096, left_until_done := some 1024,
    total_size := some 4096, uploaded_ever := some 2048, download_dir := some "/dl",
    hash_string := some "abc", added_date := some 100, done_date := some 200,
    error_string := some "", tracker_stats := some [⟨"tr.example", false, 300⟩],
    files := some [⟨"f/a", 10, 20⟩], file_stats := some [⟨Priority.Normal, true⟩] }

/-- The record `mapOne` produces for `c6Raw`. -/
def c6Mapped : Torrent :=
  Torrent.mk 7 false "Downloading" "alpha"
    "alpha\nStatus: Downloading    Have: 3.0 KB of 4.0 KB" "50.0%" "4.0 KB" "4.0 KB"
    "2.0 KB" "2.0 KB/s" "3.0 KB" "1.0 KB/s" "1.00" "/dl" "abc" 100 200 "1h" ""
    [⟨"tr.example", false, 300⟩] [⟨"f/a", "10.0 B", "20.0 B", "Normal", true⟩]

/-- The `c6Raw` with one required field removed. -/
def c6RawMissing : RawTorrent :=
  { c6Raw with tracker_stats := none }

/-- Witness for C6, at a fully populated record (`c6Raw`) and at one with a
required field absent (`c6RawMissing`). -/
theorem map_total_or_drop_witness :
    (∃ trackerStats rawFiles nm st swd lud idv isst etaRaw ur pd tsz ue ru rd dl hs
      ad adv dd ddv es,
      c6Raw.tracker_stats = some trackerStats ∧ c6Raw.files = some rawFiles ∧
      c6Raw.name = some nm ∧
      c6Raw.status = some st ∧ c6Raw.size_when_done = some swd ∧
      c6Raw.left_until_done = some lud ∧
      c6Raw.id = some idv ∧ c6Raw.is_stalled = some isst ∧ c6Raw.eta = some etaRaw ∧
      c6Raw.upload_ratio = some ur ∧ c6Raw.percent_done = some pd ∧
      c6Raw.total_size = some tsz ∧
      c6Raw.uploaded_ever = some ue ∧ c6Raw.rate_upload = some ru ∧
      c6Raw.rate_download = some rd ∧
      c6Raw.download_dir = some dl ∧ c6Raw.hash_string = some hs ∧
      c6Raw.added_date = some ad ∧
      dateFromTimestamp ad = some adv ∧ c6Raw.done_date = some dd ∧
      dateFromTimestamp dd = some ddv ∧ c6Raw.error_string = some es ∧
      c6Mapped = Torrent.mk idv isst (convert_status st) nm
        (truncateName nm ++ "\nStatus: " ++ convert_status st ++ "    Have: " ++
          convert_bytes (swd - lud) ++ " of " ++ convert_bytes swd)
        (convert_percentage pd) (convert_bytes tsz) (convert_bytes swd) (convert_bytes ue)
        (convert_bytes ru ++ "/s") (convert_bytes (swd - lud)) (convert_bytes rd ++ "/s")
        (handle_ratio ur) dl hs adv ddv (convert_eta etaRaw) es
        (trackerStats.map fun tr => Tracker.mk tr.host tr.is_backup tr.next_announce_time)
        (mapFiles rawFiles c6Raw.file_stats)) ∧
    mapOne c6RawMissing = none :=
  ⟨map_total_or_drop.1 c6Raw c6Mapped (by decide),
   map_total_or_drop.2.1 c6RawMissing (Or.inl (by decide))⟩

/-! ## Claim C7: the mapped collection is stably sorted by name -/

theorem insertionSort_filter_name (l : List Torrent) (nm : String) :
    (List.insertionSort torrentLe l).filter (fun t => decide (t.name = nm)) =
      l.filter (fun t => decide (t.name = nm)) := by
  have hkey : ∀ a ∈ l.filter (fun t => decide (t.name = nm)),
      ∀ b ∈ l.filter (fun t => decide (t.name = nm)), torrentLe a b := by
    intro a ha b hb
    have h1 : a.name = nm := of_decide_eq_true (List.mem_filter.mp ha).2
    have h2 : b.name = nm := of_decide_eq_true (List.mem_filter.mp hb).2
    show lexLe a.name.data b.name.data = true
    rw [h1, h2]
    exact lexLe_refl _
  have hpair := List.pairwise_of_forall_mem_list hkey
  have hsub := List.sublist_insertionSort hpair (List.filter_sublist l)
  have hsubf := hsub.filter (fun t => decide (t.name = nm))
  have hself : (l.filter (fun t => decide (t.name = nm))).filter
      (fun t => decide (t.name = nm)) = l.filter (fun t => decide (t.name = nm)) := by
    rw [List.filter_eq_self]
    intro a ha
    exact (List.mem_filter.mp ha).2
  rw [hself] at hsubf
  have hlen := ((List.perm_insertionSort torrentLe l).filter
    (fun t => decide (t.name = nm))).length_eq
  exact (hsubf.eq_of_length hlen.symm).symm

/-- Raw record named "a" for the C7 end-to-end example. -/
def c7RawA : RawTorrent :=
  { c6Raw with name := some "a", id := some 1 }

/-- Raw record named "b" for the C7 end-to-end example. -/
def c7RawB : RawTorrent :=
  { c6Raw with name := some "b", id := some 2 }

/-- C7: a successful poll maps to a collection sorted by the record name in
case-sensitive (byte-lexicographic) order, the sort is stable (records with
equal names keep their mapped order), the collection is a permutation of the
per-record mapping results; and in particular a Tick when the transport
returns two items named "b" and "a" yields a List-view model whose display
names are ordered a-first. -/
theorem data_mapper_sorted_stable :
    (∀ raws : List RawTorrent,
      map_torrent_data (fun _ => Except.ok raws) none =
        Except.ok (List.insertionSort torrentLe (raws.filterMap mapOne)) ∧
      List.Sorted torrentLe (List.insertionSort torrentLe (raws.filterMap mapOne)) ∧
      (List.insertionSort torrentLe (raws.filterMap mapOne)).Perm
        (raws.filterMap mapOne) ∧
      (∀ nm : String,
        (List.insertionSort torrentLe (raws.filterMap mapOne)).filter
            (fun t => decide (t.name = nm)) =
          (raws.filterMap mapOne).filter (fun t => decide (t.name = nm)))) ∧
    (get_torrent_data (fun _ => Except.ok [c7RawB, c7RawA])).map
        (fun l => l.map Data.name) =
      Except.ok ["a\nStatus: Downloading    Have: 3.0 KB of 4.0 KB",
        "b\nStatus: Downloading    Have: 3.0 KB of 4.0 KB"] := by
  refine ⟨fun raws => ⟨rfl, ?_, ?_, ?_⟩, rfl⟩
  · exact List.sorted_insertionSort torrentLe _
  · exact List.perm_insertionSort torrentLe _
  · intro nm
    exact insertionSort_filter_name _ nm

/-! ## The mode state machine and view components

The `Mode`, `Action` and `App` types live in `src/app.rs` / `src/action.rs`,
which are not among the provided sources; `Mode` and `Action` are modelled
with exactly the constructors the provided components construct and match
(`Action::Mode` carries only the target mode — no focus id), and the
dispatch loop is modelled from the spec (§4.1, §4.2). -/

/-- The `Mode` from the missing `src/app.rs`, as used by the components:
`Mode::Home` (the List view) and `Mode::Properties` (the Detail view). -/
inductive Mode where
  | Home
  | Properties
deriving DecidableEq

/-- The key codes the two components match on (`crossterm::event::KeyCode`);
modifiers are not inspected by any handler. -/
inductive KeyCode where
  | char (c : Char)
  | enter
  | esc
  | up
  | down
  | left
  | right
deriving DecidableEq

/-- The `transmission_rpc::types::TorrentAction` as used by the Home view. -/
inductive TorrentAction where
  | Start
  | Stop
deriving DecidableEq

/-- The `Action` from the missing `src/action.rs`, with the constructors the
provided sources construct: note `Mode` carries only the target mode. -/
inductive Action where
  | Tick
  | Render
  | Quit
  | ClearScreen
  | Mode (m : Sparrow.Mode)
  | Error (msg : String)
  | Key (k : KeyCode)
deriving DecidableEq

/-- The shared RPC transport (spec §6), reduced to the two capabilities the
claims exercise: fetch snapshots by optional identity filter, and issue
start/stop commands. -/
structure Transport where
  get : Option (List Int) → Except String (List RawTorrent)
  action : TorrentAction → List Int → Except String Unit

/-- The List view's state (src/components/home.rs `Home`): the
`TableState` selection and the row records.  The scrollbar state and table
offset are rendering aids and are not modelled. -/
structure HomeState where
  selected : Option Nat
  items : List Data
deriving DecidableEq

/-- The `Home::next` (src/components/home.rs lines 99-112): wraps to row 0 past
the last row.  The source computes `self.items.len() - 1` in `usize`
unguarded: for an empty collection this underflows (a panic in debug
builds); `Nat` subtraction truncates instead, so the model is faithful only
for non-empty `items` — the precondition claim C10 records. -/
def home_next (st : HomeState) : HomeState :=
  let i := match st.selected with
    | some i => if st.items.length - 1 ≤ i then 0 else i + 1
    | none => 0
  { st with selected := some i }

/-- The `Home::previous` (src/components/home.rs lines 114-127): wraps to the
last row before row 0; the same unguarded `len - 1` caveat applies. -/
def home_previous (st : HomeState) : HomeState :=
  let i := match st.selected with
    | some i => if i = 0 then st.items.length - 1 else i - 1
    | none => 0
  { st with selected := some i }

/-- The `Home::top`: `TableState::select_first()` selects row 0. -/
def home_top (st : HomeState) : HomeState :=
  { st with selected := some 0 }

/-- The `Home::bottom`: `TableState::select_last()` stores `usize::MAX`, clamped
only at render time; no claim exercises it. -/
def home_bottom (st : HomeState) : HomeState :=
  { st with selected := some (2 ^ 64 - 1) }

/-- The `Home::toggle_state` (src/components/home.rs lines 58-83): reads the
selected row's id and stall flag (`NoRowSelected` / `OutOfBound` when the
selection is absent or out of range, stringified by the caller) and issues
Start for a stalled item, Stop otherwise. -/
def home_toggle_state (tr : Transport) (st : HomeState) : Except String Unit :=
  match st.selected with
  | none => Except.error (errToString AppError.NoRowSelected)
  | some idx =>
    match st.items.get? idx with
    | none => Except.error (errToString AppError.OutOfBound)
    | some item =>
      if item.is_stalled then tr.action TorrentAction.Start [item.id]
      else tr.action TorrentAction.Stop [item.id]

/-- The `Home::start_all`. -/
def home_start_all (tr : Transport) (st : HomeState) : Except String Unit :=
  tr.action TorrentAction.Start (st.items.map Data.id)

/-- The `Home::stop_all`. -/
def home_stop_all (tr : Transport) (st : HomeState) : Except String Unit :=
  tr.action TorrentAction.Stop (st.items.map Data.id)

/-- The `Home::handle_key_event` (src/components/home.rs lines 217-259). -/
def home_handle_key_event (tr : Transport) (st : HomeState) (key : KeyCode) :
    HomeState × Option Action :=
  match key with
  | KeyCode.char 'q' => (st, some Action.Quit)
  | KeyCode.char 'l' => (st, some (Action.Mode Mode.Properties))
  | KeyCode.enter => (st, some (Action.Mode Mode.Properties))
  | KeyCode.char 'j' => (home_next st, none)
  | KeyCode.down => (home_next st, none)
  | KeyCode.char 'k' => (home_previous st, none)
  | KeyCode.up => (home_previous st, none)
  | KeyCode.char 'g' => (home_top st, none)
  | KeyCode.char 'G' => (home_bottom st, none)
  | KeyCode.char 'p' =>
    match home_toggle_state tr st with
    | Except.ok _ => (st, none)
    | Except.error e => (st, some (Action.Error e))
  | KeyCode.char 's' =>
    match home_start_all tr st with
    | Except.ok _ => (st, none)
    | Except.error e => (st, some (Action.Error e))
  | KeyCode.char 'S' =>
    match home_stop_all tr st with
    | Except.ok _ => (st, none)
    | Except.error e => (st, some (Action.Error e))
  | _ => (st, none)

/-- The `Home::update` (src/components/home.rs lines 261-273): a `Tick` replaces
the whole item collection (the selection is not touched); every other
action — including `Mode` transitions — leaves the state unchanged. -/
def home_update (tr : Transport) (st : HomeState) (a : Action) : HomeState × Option Action :=
  match a with
  | Action.Tick =>
    match get_torrent_data tr.get with
    | Except.ok items => ({ st with items := items }, none)
    | Except.error err => (st, some (Action.Error (errToString err)))
  | _ => (st, none)

/-- The `SelectedTab` from src/components/properties.rs. -/
inductive SelectedTab where
  | Info
  | Peers
  | Tracker
  | Files
deriving DecidableEq

/-- The `strum` discriminant of a tab. -/
def SelectedTab.toIdx : SelectedTab → Nat
  | SelectedTab.Info => 0
  | SelectedTab.Peers => 1
  | SelectedTab.Tracker => 2
  | SelectedTab.Files => 3

/-- The `SelectedTab::from_repr`. -/
def SelectedTab.fromIdx : Nat → Option SelectedTab
  | 0 => some SelectedTab.Info
  | 1 => some SelectedTab.Peers
  | 2 => some SelectedTab.Tracker
  | 3 => some SelectedTab.Files
  | _ => none

/-- The `SelectedTab::next`: saturates at the last tab. -/
def SelectedTab.next (t : SelectedTab) : SelectedTab :=
  (SelectedTab.fromIdx (t.toIdx + 1)).getD t

/-- The `SelectedTab::previous`: saturates at the first tab
(`saturating_sub`). -/
def SelectedTab.previous (t : SelectedTab) : SelectedTab :=
  (SelectedTab.fromIdx (t.toIdx - 1)).getD t

/-- The Detail view's state (src/components/properties.rs `Properties`). -/
structure PropertiesState where
  data : TorrentData
  selected_tab : SelectedTab
deriving DecidableEq

/-- The `Properties::handle_key_event` (src/components/properties.rs lines
76-96): `Esc` emits the back transition `Action::Mode(Mode::Home)`; tab
movement emits `ClearScreen` when landing on the Tracker tab from the
right. -/
def properties_handle_key_event (st : PropertiesState) (key : KeyCode) :
    PropertiesState × Option Action :=
  match key with
  | KeyCode.char 'q' => (st, some Action.Quit)
  | KeyCode.esc => (st, some (Action.Mode Mode.Home))
  | KeyCode.char 'l' => ({ st with selected_tab := st.selected_tab.next }, none)
  | KeyCode.right => ({ st with selected_tab := st.selected_tab.next }, none)
  | KeyCode.char 'h' =>
    let st' := { st with selected_tab := st.selected_tab.previous }
    if st'.selected_tab = SelectedTab.Tracker then (st', some Action.ClearScreen)
    else (st', none)
  | KeyCode.left =>
    let st' := { st with selected_tab := st.selected_tab.previous }
    if st'.selected_tab = SelectedTab.Tracker then (st', some Action.ClearScreen)
    else (st', none)
  | _ => (st, none)

/-- The `Properties::update` (src/components/properties.rs lines 62-74): a
`Tick` re-queries the transport with the FIXED identity `1`
(`map_torrent_data(&self.client, 1)`) regardless of which row the List view
had selected — the mode transition carries no focus id that could be used
instead. -/
def properties_update (tr : Transport) (st : PropertiesState) (a : Action) :
    PropertiesState × Option Action :=
  match a with
  | Action.Tick =>
    match map_torrent_data_props tr.get 1 with
    | Except.ok d => ({ st with data := d }, none)
    | Except.error err => (st, some (Action.Error (errToString err)))
  | _ => (st, none)

/-- The application state: current mode and both view components' states
(spec §3, "Application State"). -/
structure AppState where
  mode : Mode
  home : HomeState
  properties : PropertiesState
deriving DecidableEq

/-- Modelled from the spec: the update engine and mode controller live in
the missing `src/app.rs`.  Following §4.1/§4.2, dispatching an action
applies a `Mode` transition to the application state, and routes key and
tick actions to the currently active view component, returning its optional
follow-up action (which the loop would re-enqueue). -/
def app_dispatch (tr : Transport) (st : AppState) (a : Action) : AppState × Option Action :=
  match a with
  | Action.Mode m => ({ st with mode := m }, none)
  | Action.Key k =>
    match st.mode with
    | Mode.Home =>
      let r := home_handle_key_event tr st.home k
      ({ st with home := r.1 }, r.2)
    | Mode.Properties =>
      let r := properties_handle_key_event st.properties k
      ({ st with properties := r.1 }, r.2)
  | Action.Tick =>
    match st.mode with
    | Mode.Home =>
      let r := home_update tr st.home Action.Tick
      ({ st with home := r.1 }, r.2)
    | Mode.Properties =>
      let r := properties_update tr st.properties Action.Tick
      ({ st with properties := r.1 }, r.2)
  | _ => (st, none)

/-! ## Claim C1: selection focus does not reach the Detail view -/

/-- Raw item with id 1 named "one". -/
def c1RawOne : RawTorrent :=
  { c6Raw with name := some "one", id := some 1 }

/-- Raw item with id 5 named "five". -/
def c1RawFive : RawTorrent :=
  { c6Raw with name := some "five", id := some 5 }

/-- A transport holding items 1 ("one") and 5 ("five"): a single-identity
request for id 1 returns item 1; an unfiltered request returns both. -/
def c1Transport : Transport :=
  { get := fun req =>
      if req = some [1] then Except.ok [c1RawOne] else Except.ok [c1RawFive, c1RawOne],
    action := fun _ _ => Except.ok () }

/-- A blank Detail record (the initial Detail data is irrelevant to the
claims; a Tick replaces it). -/
def blankTorrentData : TorrentData :=
  TorrentData.mk false "" "" "" "" "" "" "" "" "" 0 0 "" "" [] []

/-- Start state for C1: List mode, rows sorted ["five…", "one…"], row 0
(the item with id 5) selected. -/
def c1Start : AppState :=
  { mode := Mode.Home,
    home := { selected := some 0,
              items := List.insertionSort dataLe ([c1RawFive, c1RawOne].filterMap mapOneHome) },
    properties := { data := blankTorrentData, selected_tab := SelectedTab.Info } }

/-- C1 fails on the code: with the row of the item with id 5 selected,
performing the select action emits `Action::Mode(Mode::Properties)`, which
carries no id, and the Detail view's next Tick queries the fixed id 1 and
displays item 1 ("one"), not the selected item 5 ("five"). -/
theorem select_queries_fixed_id :
    ((c1Start.home.items.get? 0).map Data.id = some 5) ∧
    ((app_dispatch c1Transport c1Start (Action.Key KeyCode.enter)).2 =
      some (Action.Mode Mode.Properties)) ∧
    ((app_dispatch c1Transport
        (app_dispatch c1Transport
          (app_dispatch c1Transport c1Start (Action.Key KeyCode.enter)).1
          (Action.Mode Mode.Properties)).1 Action.Tick).1.mode = Mode.Properties) ∧
    ((app_dispatch c1Transport
        (app_dispatch c1Transport
          (app_dispatch c1Transport c1Start (Action.Key KeyCode.enter)).1
          (Action.Mode Mode.Properties)).1 Action.Tick).1.properties.data.name = "one") ∧
    "one" ≠ "five" := by
  refine ⟨by decide, by decide, by decide, by decide, by decide⟩

/-! ## Claim C2: returning to the List does not re-select by id -/

/-- A transport whose refreshed collection contains only the item with id 5:
the previously focused id 1 no longer exists. -/
def c2Transport : Transport :=
  { get := fun _ => Except.ok [c1RawFive],
    action := fun _ _ => Except.ok () }

/-- Start state for C2: Detail mode; the List view still holds rows
["five…" (id 5), "one…" (id 1)] with row 1 (id 1) selected. -/
def c2Start : AppState :=
  { mode := Mode.Properties,
    home := { selected := some 1,
              items := List.insertionSort dataLe ([c1RawFive, c1RawOne].filterMap mapOneHome) },
    properties := { data := blankTorrentData, selected_tab := SelectedTab.Info } }

/-- C2 counterexample: the previously focused row holds id 1; after back and
a refresh whose collection holds only id 5, the claim requires the selection
to fall back to the first item (index 0), but the code leaves the selection
index unchanged at 1 — now out of range of the 1-element collection. -/
theorem back_keeps_index_counterexample :
    ((c2Start.home.items.get? 1).map Data.id = some 1) ∧
    ((get_torrent_data c2Transport.get).toOption.map (fun l => l.map Data.id) = some [5]) ∧
    ((app_dispatch c2Transport
        (app_dispatch c2Transport
          (app_dispatch c2Transport c2Start (Action.Key KeyCode.esc)).1
          (Action.Mode Mode.Home)).1 Action.Tick).1.home.selected = some 1) ∧
    ((app_dispatch c2Transport
        (app_dispatch c2Transport
          (app_dispatch c2Transport c2Start (Action.Key KeyCode.esc)).1
          (Action.Mode Mode.Home)).1 Action.Tick).1.home.items.length = 1) ∧
    some 1 ≠ (some 0 : Option Nat) := by
  refine ⟨by decide, by decide, by decide, by decide, by decide⟩

/-- C2 (amended): performing back in Detail mode emits
`Action::Mode(Mode::Home)` and returns the application to List mode, but the
List selection index is simply left unchanged — there is no id-based
re-selection and no fallback — and a subsequent successful refresh replaces
the items while retaining that index. -/
theorem back_returns_to_list_selection_unchanged :
    ∀ (tr : Transport) (st : AppState), st.mode = Mode.Properties →
      ((app_dispatch tr st (Action.Key KeyCode.esc)).2 = some (Action.Mode Mode.Home)) ∧
      ((app_dispatch tr st (Action.Key KeyCode.esc)).1.home = st.home) ∧
      ((app_dispatch tr (app_dispatch tr st (Action.Key KeyCode.esc)).1
          (Action.Mode Mode.Home)).1.mode = Mode.Home) ∧
      ((app_dispatch tr (app_dispatch tr st (Action.Key KeyCode.esc)).1
          (Action.Mode Mode.Home)).1.home.selected = st.home.selected) ∧
      (∀ items : List Data, get_torrent_data tr.get = Except.ok items →
        (app_dispatch tr
            (app_dispatch tr (app_dispatch tr st (Action.Key KeyCode.esc)).1
              (Action.Mode Mode.Home)).1 Action.Tick).1.home =
          { selected := st.home.selected, items := items }) := by
  intro tr st hm
  obtain ⟨mode, home, props⟩ := st
  simp only at hm
  subst hm
  refine ⟨rfl, rfl, rfl, rfl, ?_⟩
  intro items hitems
  simp [app_dispatch, properties_handle_key_event, home_update, hitems]

/-- The refreshed row collection of `c2Transport`. -/
def c2RefreshedItems : List Data :=
  List.insertionSort dataLe ([c1RawFive].filterMap mapOneHome)

/-- Witness for C2 (amended) at the concrete Detail state `c2Start` and
transport `c2Transport`. -/
theorem back_returns_to_list_selection_unchanged_witness :
    ((app_dispatch c2Transport c2Start (Action.Key KeyCode.esc)).2 =
      some (Action.Mode Mode.Home)) ∧
    ((app_dispatch c2Transport c2Start (Action.Key KeyCode.esc)).1.home = c2Start.home) ∧
    ((app_dispatch c2Transport (app_dispatch c2Transport c2Start (Action.Key KeyCode.esc)).1
        (Action.Mode Mode.Home)).1.mode = Mode.Home) ∧
    ((app_dispatch c2Transport (app_dispatch c2Transport c2Start (Action.Key KeyCode.esc)).1
        (Action.Mode Mode.Home)).1.home.selected = c2Start.home.selected) ∧
    ((app_dispatch c2Transport
        (app_dispatch c2Transport (app_dispatch c2Transport c2Start (Action.Key KeyCode.esc)).1
          (Action.Mode Mode.Home)).1 Action.Tick).1.home =
      { selected := c2Start.home.selected, items := c2RefreshedItems }) := by
  have h := back_returns_to_list_selection_unchanged c2Transport c2Start rfl
  exact ⟨h.1, h.2.1, h.2.2.1, h.2.2.2.1, h.2.2.2.2 c2RefreshedItems rfl⟩

/-! ## Claim C10: List cursor wrap-around -/

/-- C10: in the List view, for a non-empty item collection, `next` with the
last row selected wraps the selection to index 0 and `previous` with row 0
selected wraps it to the last index; both compute `items.len() - 1`
unguarded, so non-emptiness is the precondition making that index arithmetic
well-defined (for an empty collection the `usize` subtraction underflows). -/
theorem list_navigation_wraparound :
    ∀ st : HomeState, st.items ≠ [] →
      (st.selected = some (st.items.length - 1) → (home_next st).selected = some 0) ∧
      (st.selected = some 0 → (home_previous st).selected = some (st.items.length - 1)) := by
  intro st _
  constructor
  · intro hsel
    rw [home_next, hsel]
    simp
  · intro hsel
    rw [home_previous, hsel]
    simp

/-- A row record for the C10 witness. -/
def c10Row : Data :=
  Data.mk 1 false "n" "d" "e" "u" "w" "r"

/-- Witness for C10 on a 3-row collection. -/
theorem list_navigation_wraparound_witness :
    (home_next ⟨some 2, [c10Row, c10Row, c10Row]⟩).selected = some 0 ∧
    (home_previous ⟨some 0, [c10Row, c10Row, c10Row]⟩).selected = some 2 :=
  ⟨(list_navigation_wraparound ⟨some 2, [c10Row, c10Row, c10Row]⟩ (by decide)).1 rfl,
   (list_navigation_wraparound ⟨some 0, [c10Row, c10Row, c10Row]⟩ (by decide)).2 rfl⟩

end Sparrow
